import Mathlib

/-!
Shallow embedding of `src/main.rs` of the sierpinski-triangle repository.

Conventions:
* `u32` values are modelled as `Nat`; arithmetic that can wrap around in the
  compiled (release-mode) program is taken modulo `2^32` explicitly
  (`wadd`, `wsub`).  Division cannot overflow and is plain `Nat` floor
  division, exactly as in Rust.
* Pixel buffers (`image::ImageBuffer<Rgb<u8>, _>`) are modelled by `Canvas`:
  dimensions plus a total pixel function.  `put_pixel` panics when the
  coordinate is out of bounds, so it returns an `Option`; a `none` anywhere
  models a panic of the Rust program.
* The thread-local RNG is modelled by an oracle: the list `ns : List (Fin 3)`
  of the successive draws of `rng.gen_range(0..=2)`.
* Rust `String` values are modelled as `List Char`; byte-based operations
  (`len`, range slicing) go through `Char.utf8Size`, matching UTF-8.
-/

namespace Sierpinski

/-- Number of values of a `u32`; u32 arithmetic wraps modulo this. -/
def U32LIM : Nat := 4294967296

/-- Wrapping u32 addition (release-mode semantics of `a + b` on `u32`). -/
def wadd (a b : Nat) : Nat := (a + b) % U32LIM

/-- Wrapping u32 subtraction (release-mode semantics of `a - b` on `u32`),
for `a b < 2^32`. -/
def wsub (a b : Nat) : Nat := (a + U32LIM - b) % U32LIM

/-- An RGB triple, one `u8` per channel (`image::Rgb<u8>`). -/
structure Rgb where
  r : Nat
  g : Nat
  b : Nat
deriving DecidableEq, Repr

/-- Opaque white, the fallback color of `get_color`. -/
def white : Rgb := ⟨255, 255, 255⟩

/-- A pixel buffer: `ImageBuffer<Rgb<u8>, Vec<u8>>` of `image.dimensions()`
`(width, height)`, with a total pixel-lookup function. -/
structure Canvas where
  width : Nat
  height : Nat
  pix : Nat → Nat → Rgb

/-- The buffer obtained from `img` by overwriting the pixel at `(x, y)`. -/
def writePix (img : Canvas) (x y : Nat) (c : Rgb) : Canvas :=
  ⟨img.width, img.height, fun a b => if a = x ∧ b = y then c else img.pix a b⟩

/-- Model of `ImageBuffer::put_pixel`, which panics (`none`) when the
coordinate lies outside the buffer. -/
def putPixel (img : Canvas) (x y : Nat) (c : Rgb) : Option Canvas :=
  if x < img.width ∧ y < img.height then some (writePix img x y c) else none

/-- Model of `RgbImage::new(width, height)`: a zero-filled (black) buffer. -/
def blank (w h : Nat) : Canvas := ⟨w, h, fun _ _ => ⟨0, 0, 0⟩⟩

/-- The `positions` array of `make_image` (src/main.rs lines 162-166):
the three triangle vertices, indexed by the random draw `n ∈ {0,1,2}`. -/
def positions (width height : Nat) : Fin 3 → Nat × Nat
  | ⟨0, _⟩ => (width / 10, height - height / 10)
  | ⟨1, _⟩ => (width - width / 10, height - height / 10)
  | ⟨_ + 2, _⟩ => (width / 2, height / 10)

/-- The corner pixels plotted by the `for [x, y] in positions` loop, in
plot order. -/
def cornersList (w h : Nat) : List (Nat × Nat) :=
  [positions w h 0, positions w h 1, positions w h 2]

/-- Initial cursor `last = [width / 2, height / 2 - 1]` (line 170); the
subtraction is u32 arithmetic and wraps for `height < 2`. -/
def cursorInit (w h : Nat) : Nat × Nat := (w / 2, wsub (h / 2) 1)

/-- One cursor update of the loop (lines 183-186):
`last = [(last[0] + positions[n][0]) / 2, (last[1] + positions[n][1]) / 2]`,
with wrapping u32 addition followed by floor division. -/
def step (w h : Nat) (c : Nat × Nat) (n : Fin 3) : Nat × Nat :=
  (wadd c.1 (positions w h n).1 / 2, wadd c.2 (positions w h n).2 / 2)

/-- Plot a list of coordinates in order, each with the color resolved at its
own coordinate; `none` models an out-of-bounds `put_pixel` panic. -/
def plotList (color : Nat → Nat → Rgb) : Canvas → List (Nat × Nat) → Option Canvas
  | img, [] => some img
  | img, p :: rest =>
    match putPixel img p.1 p.2 (color p.1 p.2) with
    | none => none
    | some img2 => plotList color img2 rest

/-- The dot loop (lines 180-190): for each random draw, plot the pixel at the
current cursor, then move the cursor by `step`.  The progress bar is a pure
side effect and is not modelled. -/
def plotDots (w h : Nat) (color : Nat → Nat → Rgb) :
    Canvas → Nat × Nat → List (Fin 3) → Option Canvas
  | img, _, [] => some img
  | img, last, n :: rest =>
    match putPixel img last.1 last.2 (color last.1 last.2) with
    | none => none
    | some img2 => plotDots w h color img2 (step w h last n) rest

/-- Model of `make_image` (lines 151-194): plot the three corners, then run
the chaos-game loop driven by the draw sequence `ns`. -/
def make_image (img : Canvas) (ns : List (Fin 3)) (color : Nat → Nat → Rgb) :
    Option Canvas :=
  match plotList color img (cornersList img.width img.height) with
  | none => none
  | some img2 =>
    plotDots img.width img.height color img2
      (cursorInit img.width img.height) ns

/-- The successive cursor positions plotted by the dot loop when started at
cursor `c` and driven by the draws `ns` (each cursor is plotted before it is
updated). -/
def dotWrites (w h : Nat) : Nat × Nat → List (Fin 3) → List (Nat × Nat)
  | _, [] => []
  | c, n :: rest => c :: dotWrites w h (step w h c n) rest

/-- Every coordinate passed to a `put_pixel` call by `make_image` on a
`w × h` buffer, in write order: the three corners followed by the plotted
cursor positions. -/
def writeTrace (w h : Nat) (ns : List (Fin 3)) : List (Nat × Nat) :=
  cornersList w h ++ dotWrites w h (cursorInit w h) ns

/-! ### The color resolver `get_color` (src/main.rs lines 196-250)

Rust strings are UTF-8 byte sequences; `hex_code.len()` and the range
slices `&hex_code[i..i + 2]` count and cut bytes, and a slice whose end
falls inside a multi-byte character panics.  The model keeps the string as
a `List Char` and accounts bytes through `Char.utf8Size`; a `none` result
again models a panic. -/

/-- The log lines `get_color` can emit, by branch. -/
inductive LogMsg where
  | infoNoColor
  | warnEmpty
  | warnLength
  | warnInvalidDigit
  | warnUnknown
deriving DecidableEq, Repr

/-- The two `ParseIntError` kinds distinguished by `get_color`:
`IntErrorKind::InvalidDigit` and everything else. -/
inductive PErr where
  | invalidDigit
  | otherErr
deriving DecidableEq, Repr

/-- Value of a hexadecimal digit character, as in `char::to_digit(16)`. -/
def hexDigitVal (c : Char) : Option Nat :=
  if '0' ≤ c ∧ c ≤ '9' then some (c.toNat - '0'.toNat)
  else if 'a' ≤ c ∧ c ≤ 'f' then some (c.toNat - 'a'.toNat + 10)
  else if 'A' ≤ c ∧ c ≤ 'F' then some (c.toNat - 'A'.toNat + 10)
  else none

/-- Digit-accumulation loop of `u8::from_str_radix(_, 16)`: any non-digit is
`InvalidDigit`, exceeding `u8::MAX` is `PosOverflow` (an "other" kind). -/
def parseDigitsU8 : List Char → Nat → Except PErr Nat
  | [], acc => Except.ok acc
  | c :: rest, acc =>
    match hexDigitVal c with
    | none => Except.error PErr.invalidDigit
    | some d =>
      if acc * 16 + d ≤ 255 then parseDigitsU8 rest (acc * 16 + d)
      else Except.error PErr.otherErr

/-- Model of `u8::from_str_radix(s, 16)`: empty input is the `Empty` kind
(an "other" kind), a lone sign is `InvalidDigit`, a leading `+` is consumed,
and `-` is not a digit for an unsigned type. -/
def from_str_radix_u8 (s : List Char) : Except PErr Nat :=
  match s with
  | [] => Except.error PErr.otherErr
  | ['+'] => Except.error PErr.invalidDigit
  | '+' :: rest => parseDigitsU8 rest 0
  | _ => parseDigitsU8 s 0

/-- Byte length of a Rust string (`str::len`). -/
def byteLen (s : List Char) : Nat := (s.map Char.utf8Size).sum

/-- Drop the first `k` BYTES of a string; `none` when `k` is not a character
boundary (or past the end), which panics in Rust. -/
def dropBytes : List Char → Nat → Option (List Char)
  | s, 0 => some s
  | [], _ + 1 => none
  | c :: rest, k + 1 =>
    if c.utf8Size ≤ k + 1 then dropBytes rest (k + 1 - c.utf8Size) else none

/-- Take the first `k` BYTES of a string; `none` when `k` is not a character
boundary (or past the end), which panics in Rust. -/
def takeBytes : List Char → Nat → Option (List Char)
  | _, 0 => some []
  | [], _ + 1 => none
  | c :: rest, k + 1 =>
    if c.utf8Size ≤ k + 1 then
      match takeBytes rest (k + 1 - c.utf8Size) with
      | some t => some (c :: t)
      | none => none
    else none

/-- Model of the byte-range slice `&s[i..i + n]`. -/
def sliceBytes (s : List Char) (i n : Nat) : Option (List Char) :=
  match dropBytes s i with
  | none => none
  | some t => takeBytes t n

/-- Model of `(0..n).step_by(2)`. -/
def stepBy2 (n : Nat) : List Nat := (List.range n).filter (fun i => i % 2 = 0)

/-- Shorthand expansion (lines 216-225): every character is pushed twice. -/
def expandShorthand (s : List Char) : List Char := s.flatMap (fun c => [c, c])

/-- The `map`/`collect` pipeline (lines 227-231): for each start offset,
slice two bytes (a slice off a character boundary panics, `none`) and parse
them as a base-16 `u8`; the first parse error short-circuits the rest. -/
def collectGroups (s : List Char) : List Nat → Option (Except PErr (List Nat))
  | [] => some (Except.ok [])
  | i :: is =>
    match sliceBytes s i 2 with
    | none => none
    | some g =>
      match from_str_radix_u8 g with
      | Except.error e => some (Except.error e)
      | Except.ok v =>
        match collectGroups s is with
        | none => none
        | some (Except.error e) => some (Except.error e)
        | some (Except.ok vs) => some (Except.ok (v :: vs))

/-- Model of `get_color` (lines 196-250).  The result pairs the returned
`Rgb` with the log message the branch emits (`none` when nothing is
logged); an overall `none` models a panic. -/
def get_color (hex : Option (List Char)) : Option (Rgb × Option LogMsg) :=
  match hex with
  | some hex_code =>
    if hex_code.isEmpty then some (white, some LogMsg.warnEmpty)
    else
      let stripped :=
        if hex_code.head? = some '#' then hex_code.tail else hex_code
      if ¬ (byteLen stripped = 3 ∨ byteLen stripped = 6) then
        some (white, some LogMsg.warnLength)
      else
        let expanded :=
          if byteLen stripped = 3 then expandShorthand stripped else stripped
        match collectGroups expanded (stepBy2 (byteLen expanded)) with
        | none => none
        | some (Except.ok vs) =>
          some (⟨vs.getD 0 0, vs.getD 1 0, vs.getD 2 0⟩, none)
        | some (Except.error PErr.invalidDigit) =>
          some (white, some LogMsg.warnInvalidDigit)
        | some (Except.error PErr.otherErr) =>
          some (white, some LogMsg.warnUnknown)
  | none => some (white, some LogMsg.infoNoColor)

/-! ### Image-seed mode (src/main.rs lines 102-120)

The `Image` subcommand calls
`make_image(im.grayscale().brighten(-50).to_rgb8(), dots, |x, y| ...)`
where the closure samples `im`, the image as loaded from disk.  The
`image`-crate operations are external library code; they are modelled from
that crate's semantics (v0.24): grayscale uses the integer BT.709 luma
`(2126 r + 7152 g + 722 b) / 10000`, `brighten` clamps each channel of the
widened sum to `[0, 255]`, and `to_rgb8` of a luma image replicates the
luma value into the three channels. -/

/-- A decoded source image (`DynamicImage`, assumed RGB8): dimensions and a
pixel function giving the RGB channels of `get_pixel`. -/
structure SrcImage where
  width : Nat
  height : Nat
  pix : Nat → Nat → Rgb

/-- A single-channel (luma) image. -/
structure LumaImage where
  width : Nat
  height : Nat
  pix : Nat → Nat → Nat

/-- Modelled from the image crate: the BT.709 integer luma of a pixel. -/
def luma (c : Rgb) : Nat := (2126 * c.r + 7152 * c.g + 722 * c.b) / 10000

/-- Modelled from the image crate: `DynamicImage::grayscale` on an RGB8
image converts every pixel to its luma. -/
def grayscale (im : SrcImage) : LumaImage :=
  ⟨im.width, im.height, fun x y => luma (im.pix x y)⟩

/-- Clamp a widened channel value back into the `u8` range. -/
def clampToByte (e : Int) : Nat :=
  if e < 0 then 0 else if 255 < e then 255 else e.toNat

/-- Modelled from the image crate: `brighten v` adds `v` to each channel,
clamping to `[0, 255]`. -/
def brighten (im : LumaImage) (v : Int) : LumaImage :=
  ⟨im.width, im.height, fun x y => clampToByte ((im.pix x y : Int) + v)⟩

/-- Modelled from the image crate: `to_rgb8` of a luma image replicates the
channel. -/
def to_rgb8 (im : LumaImage) : Canvas :=
  ⟨im.width, im.height, fun x y =>
    ⟨im.pix x y, im.pix x y, im.pix x y⟩⟩

/-- The buffer handed to `make_image` in image-seed mode:
`im.grayscale().brighten(-50).to_rgb8()` (line 114). -/
def seedCanvas (im : SrcImage) : Canvas :=
  to_rgb8 (brighten (grayscale im) (-50))

/-- The `Image` subcommand's call to `make_image` (lines 114-117): the
canvas is the darkened grayscale image, while the color closure samples
`im`, the ORIGINAL image. -/
def imageMain (im : SrcImage) (ns : List (Fin 3)) : Option Canvas :=
  make_image (seedCanvas im) ns (fun x y => im.pix x y)

/-- Pixel lookup through an optional canvas (plot result). -/
def getPix (o : Option Canvas) (x y : Nat) : Option Rgb :=
  Option.map (fun c => c.pix x y) o

/-! ### Spec-side definitions

These follow the WORDS of spec.md, for the refinement claims that compare
the program against the spec's formulas. -/

/-- Spec-side vertex table (spec.md section 3): bottom-left
`(width/10, height − height/10)`, bottom-right
`(width − width/10, height − height/10)`, top `(width/2, height/10)`,
under integer division. -/
def specVertex (w h : Nat) : Fin 3 → Nat × Nat
  | ⟨0, _⟩ => (w / 10, h - h / 10)
  | ⟨1, _⟩ => (w - w / 10, h - h / 10)
  | ⟨_ + 2, _⟩ => (w / 2, h / 10)

/-- Spec-side initial cursor `(width/2, height/2 − 1)` (spec.md section 3),
exact integer arithmetic. -/
def specCursorInit (w h : Nat) : Nat × Nat := (w / 2, h / 2 - 1)

/-- Spec-side cursor update (spec.md section 4.2 step c):
`((Cursor.x + Vertex[n].x) / 2, (Cursor.y + Vertex[n].y) / 2)` with integer
floor division, exact arithmetic. -/
def specStep (w h : Nat) (c : Nat × Nat) (n : Fin 3) : Nat × Nat :=
  ((c.1 + (specVertex w h n).1) / 2, (c.2 + (specVertex w h n).2) / 2)

/-- Spec-side random walk: on each iteration the current cursor is plotted
and then replaced by the midpoint toward the drawn vertex. -/
def specWalk (w h : Nat) : Nat × Nat → List (Fin 3) → List (Nat × Nat)
  | _, [] => []
  | c, n :: rest => c :: specWalk w h (specStep w h c n) rest

/-- Spec-side seed pixel (spec.md section 4.1): the source pixel converted
to grayscale, brightness-reduced by 50 units on the 0-255 scale (clamped at
0), re-expanded to RGB. -/
def specSeedPix (im : SrcImage) (x y : Nat) : Rgb :=
  ⟨luma (im.pix x y) - 50, luma (im.pix x y) - 50, luma (im.pix x y) - 50⟩

/-! ### Helper lemmas -/

theorem writePix_pix (img : Canvas) (x y : Nat) (c : Rgb) (a b : Nat) :
    (writePix img x y c).pix a b =
      if a = x ∧ b = y then c else img.pix a b := rfl

theorem writePix_width (img : Canvas) (x y : Nat) (c : Rgb) :
    (writePix img x y c).width = img.width := rfl

theorem writePix_height (img : Canvas) (x y : Nat) (c : Rgb) :
    (writePix img x y c).height = img.height := rfl

theorem putPixel_eq_some {img : Canvas} {x y : Nat} {c : Rgb} {out : Canvas}
    (h : putPixel img x y c = some out) :
    x < img.width ∧ y < img.height ∧ out = writePix img x y c := by
  unfold putPixel at h
  split at h
  · rename_i hc
    exact ⟨hc.1, hc.2, (Option.some.injEq _ _).mp h.symm⟩
  · cases h

theorem putPixel_of_inbounds {img : Canvas} {x y : Nat} (c : Rgb)
    (hx : x < img.width) (hy : y < img.height) :
    putPixel img x y c = some (writePix img x y c) := by
  simp [putPixel, hx, hy]

theorem plotList_spec (color : Nat → Nat → Rgb) :
    ∀ (l : List (Nat × Nat)) (img out : Canvas),
      plotList color img l = some out →
      out.width = img.width ∧ out.height = img.height ∧
        ∀ x y, out.pix x y =
          if (x, y) ∈ l then color x y else img.pix x y := by
  intro l
  induction l with
  | nil =>
    intro img out h
    simp only [plotList, Option.some.injEq] at h
    subst h
    simp
  | cons p rest ih =>
    intro img out h
    obtain ⟨px, py⟩ := p
    simp only [plotList] at h
    cases hpp : putPixel img px py (color px py) with
    | none => rw [hpp] at h; cases h
    | some img2 =>
      rw [hpp] at h
      obtain ⟨hx, hy, himg2⟩ := putPixel_eq_some hpp
      subst himg2
      obtain ⟨hw, hh, hpix⟩ := ih _ _ h
      refine ⟨hw.trans (writePix_width _ _ _ _),
        hh.trans (writePix_height _ _ _ _), ?_⟩
      intro x y
      rw [hpix x y, writePix_pix]
      by_cases hmem : (x, y) ∈ rest
      · simp [hmem]
      · by_cases hxy : x = px ∧ y = py
        · obtain ⟨rfl, rfl⟩ := hxy
          simp [hmem]
        · have : ¬ ((x, y) = (px, py)) := by
            simp only [Prod.mk.injEq]
            exact hxy
          simp [hmem, hxy, this]

theorem plotList_isSome_of_inbounds (color : Nat → Nat → Rgb) :
    ∀ (l : List (Nat × Nat)) (img : Canvas),
      (∀ p ∈ l, p.1 < img.width ∧ p.2 < img.height) →
      (plotList color img l).isSome = true := by
  intro l
  induction l with
  | nil => intro img _; rfl
  | cons p rest ih =>
    intro img hb
    obtain ⟨px, py⟩ := p
    have hp := hb (px, py) (by simp)
    simp only [plotList, putPixel_of_inbounds (color px py) hp.1 hp.2]
    apply ih
    intro q hq
    have := hb q (List.mem_cons_of_mem _ hq)
    simpa [writePix_width, writePix_height] using this

theorem plotList_append (color : Nat → Nat → Rgb) :
    ∀ (l1 l2 : List (Nat × Nat)) (img : Canvas),
      plotList color img (l1 ++ l2) =
        (plotList color img l1).bind fun img2 => plotList color img2 l2 := by
  intro l1
  induction l1 with
  | nil => intro l2 img; rfl
  | cons p rest ih =>
    intro l2 img
    simp only [List.cons_append, plotList]
    cases hpp : putPixel img p.1 p.2 (color p.1 p.2) with
    | none => rfl
    | some img2 => exact ih l2 img2

theorem plotDots_eq (w h : Nat) (color : Nat → Nat → Rgb) :
    ∀ (ns : List (Fin 3)) (img : Canvas) (c : Nat × Nat),
      plotDots w h color img c ns = plotList color img (dotWrites w h c ns) := by
  intro ns
  induction ns with
  | nil => intro img c; rfl
  | cons n rest ih =>
    intro img c
    simp only [plotDots, dotWrites, plotList]
    cases hpp : putPixel img c.1 c.2 (color c.1 c.2) with
    | none => rfl
    | some img2 => exact ih img2 (step w h c n)

theorem make_image_eq (img : Canvas) (ns : List (Fin 3))
    (color : Nat → Nat → Rgb) :
    make_image img ns color =
      plotList color img (writeTrace img.width img.height ns) := by
  simp only [make_image, writeTrace, plotList_append]
  cases hpp : plotList color img (cornersList img.width img.height) with
  | none => rfl
  | some img2 =>
    simp only [Option.bind_some]
    exact plotDots_eq _ _ color ns img2 _

theorem wadd_half_lt {a b w : Nat} (ha : a < w) (hb : b < w) (hw : w < U32LIM) :
    wadd a b / 2 < w := by
  simp only [wadd, U32LIM] at *
  omega

theorem wadd_eq_add {a b : Nat} (h : a + b < U32LIM) : wadd a b = a + b := by
  simp only [wadd]
  exact Nat.mod_eq_of_lt h

theorem wsub_one_eq {a : Nat} (h1 : 1 ≤ a) (h2 : a < U32LIM) :
    wsub a 1 = a - 1 := by
  simp only [wsub, U32LIM] at *
  omega

theorem positions_inbounds {w h : Nat} (hw : 10 ≤ w) (hh : 10 ≤ h)
    (n : Fin 3) : (positions w h n).1 < w ∧ (positions w h n).2 < h := by
  rcases n with ⟨v, hv⟩
  interval_cases v
  · exact ⟨by show w / 10 < w; omega, by show h - h / 10 < h; omega⟩
  · exact ⟨by show w - w / 10 < w; omega, by show h - h / 10 < h; omega⟩
  · exact ⟨by show w / 2 < w; omega, by show h / 10 < h; omega⟩

theorem positions_le {w h : Nat} (n : Fin 3) :
    (positions w h n).1 ≤ w ∧ (positions w h n).2 ≤ h := by
  rcases n with ⟨v, hv⟩
  interval_cases v
  · exact ⟨by show w / 10 ≤ w; omega, by show h - h / 10 ≤ h; omega⟩
  · exact ⟨by show w - w / 10 ≤ w; omega, by show h - h / 10 ≤ h; omega⟩
  · exact ⟨by show w / 2 ≤ w; omega, by show h / 10 ≤ h; omega⟩

theorem cursorInit_inbounds {w h : Nat} (hw : 10 ≤ w) (hh : 10 ≤ h)
    (hh2 : h < U32LIM) :
    (cursorInit w h).1 < w ∧ (cursorInit w h).2 < h := by
  simp only [cursorInit, wsub, U32LIM] at *
  constructor
  · omega
  · omega

theorem dotWrites_inbounds {w h : Nat} (hw : 10 ≤ w) (hw2 : w < U32LIM)
    (hh : 10 ≤ h) (hh2 : h < U32LIM) :
    ∀ (ns : List (Fin 3)) (c : Nat × Nat), c.1 < w → c.2 < h →
      ∀ p ∈ dotWrites w h c ns, p.1 < w ∧ p.2 < h := by
  intro ns
  induction ns with
  | nil => intro c _ _ p hp; simp [dotWrites] at hp
  | cons n rest ih =>
    intro c hc1 hc2 p hp
    simp only [dotWrites, List.mem_cons] at hp
    rcases hp with rfl | hp
    · exact ⟨hc1, hc2⟩
    · refine ih (step w h c n) ?_ ?_ p hp
      · exact wadd_half_lt hc1 (positions_inbounds hw hh n).1 hw2
      · exact wadd_half_lt hc2 (positions_inbounds hw hh n).2 hh2

theorem writeTrace_inbounds {w h : Nat} (ns : List (Fin 3))
    (hw : 10 ≤ w) (hw2 : w < U32LIM) (hh : 10 ≤ h) (hh2 : h < U32LIM) :
    ∀ p ∈ writeTrace w h ns, p.1 < w ∧ p.2 < h := by
  intro p hp
  simp only [writeTrace, List.mem_append] at hp
  rcases hp with hp | hp
  · simp only [cornersList, List.mem_cons, List.not_mem_nil, or_false] at hp
    rcases hp with rfl | rfl | rfl
    · exact positions_inbounds hw hh 0
    · exact positions_inbounds hw hh 1
    · exact positions_inbounds hw hh 2
  · exact dotWrites_inbounds hw hw2 hh hh2 ns (cursorInit w h)
      (cursorInit_inbounds hw hh hh2).1 (cursorInit_inbounds hw hh hh2).2 p hp

/-! ### Claim C1 -/

/-- C1, counterexample: at width 1, height 1, zero dots, the corner write
`(0, 1)` produced by `make_image` has `y = height - height/10 = 1`, which is
NOT inside `[0, height)`; the claimed in-bounds invariant fails. -/
theorem c1_counterexample :
    ((0 : Nat), (1 : Nat)) ∈ writeTrace 1 1 [] ∧ ¬ ((1 : Nat) < 1) := by
  decide

/-- C1 (amended): for every width and height with `10 ≤ W < 2^32` and
`10 ≤ H < 2^32` and every draw sequence, every coordinate passed to a pixel
write by `make_image` (the 3 vertex plots and the cursor plots) lies within
`[0, W) × [0, H)`. -/
theorem c1_writes_inbounds (w h : Nat) (ns : List (Fin 3))
    (hw : 10 ≤ w) (hw2 : w < U32LIM) (hh : 10 ≤ h) (hh2 : h < U32LIM) :
    ∀ p ∈ writeTrace w h ns, p.1 < w ∧ p.2 < h :=
  writeTrace_inbounds ns hw hw2 hh hh2

/-- C1, witness: the amended theorem applied at `W = H = 10` with one dot,
at the plotted cursor coordinate `(5, 4)`. -/
theorem c1_witness :
    (((5 : Nat), (4 : Nat)) ∈ writeTrace 10 10 [0]) ∧ (5 < 10 ∧ 4 < 10) :=
  ⟨by decide,
    c1_writes_inbounds 10 10 [0] (by decide) (by decide) (by decide)
      (by decide) (5, 4) (by decide)⟩

/-! ### Claim C2 -/

/-- C2, counterexample: at width 5, height 5, zero dots, `make_image`
panics (models as `none`): the very first corner write is at
`(5/10, 5 - 5/10) = (0, 5)` and `put_pixel` panics on `y = 5 ≥ height`. -/
theorem c2_counterexample :
    make_image (blank 5 5) [] (fun _ _ => white) = none := rfl

/-- C2 (amended): for every buffer with `10 ≤ width < 2^32` and
`10 ≤ height < 2^32` and every draw sequence, `make_image` completes without
internal failure; and with zero dots the write trace is exactly the three
corner pixels. -/
theorem c2_completes (img : Canvas) (ns : List (Fin 3))
    (color : Nat → Nat → Rgb)
    (hw : 10 ≤ img.width) (hw2 : img.width < U32LIM)
    (hh : 10 ≤ img.height) (hh2 : img.height < U32LIM) :
    (make_image img ns color).isSome = true ∧
      writeTrace img.width img.height [] =
        cornersList img.width img.height := by
  constructor
  · rw [make_image_eq]
    exact plotList_isSome_of_inbounds color _ img
      (writeTrace_inbounds ns hw hw2 hh hh2)
  · simp [writeTrace, dotWrites]

/-- C2, witness: the amended theorem applied to a blank 10×10 buffer with
one dot. -/
theorem c2_witness :
    (make_image (blank 10 10) [1] (fun _ _ => white)).isSome = true ∧
      writeTrace 10 10 [] = cornersList 10 10 :=
  c2_completes (blank 10 10) [1] (fun _ _ => white) (by decide) (by decide)
    (by decide) (by decide)

/-! ### Claim C3 -/

/-- C3, counterexample: at width `2^32 - 1`, height 10, draws `[1, 0]`, the
second plotted cursor differs from the spec's floor midpoint: the u32
addition `last[0] + positions[1][0] = 2147483647 + 3865470566` wraps modulo
`2^32`, so the program plots x = 858993458 where the exact integer midpoint
is 3006477106. -/
theorem c3_counterexample :
    dotWrites 4294967295 10 (cursorInit 4294967295 10) [1, 0] ≠
      specWalk 4294967295 10 (specCursorInit 4294967295 10) [1, 0] := by
  decide

/-- C3 (amended): provided `2 ≤ height` (so the initial-cursor subtraction
`height/2 - 1` cannot wrap) and `width, height ≤ 2^31` (so the u32 midpoint
additions cannot wrap), the dot loop plots exactly the spec's random walk:
it starts at `(width/2, height/2 - 1)`, plots the current cursor on each
iteration, and then replaces it by the componentwise integer floor midpoint
toward the vertex selected by the draw. -/
theorem c3_walk_matches_spec (w h : Nat) (ns : List (Fin 3))
    (hh : 2 ≤ h) (hw2 : w ≤ 2147483648) (hh2 : h ≤ 2147483648) :
    dotWrites w h (cursorInit w h) ns =
      specWalk w h (specCursorInit w h) ns := by
  have hvert : ∀ n : Fin 3, positions w h n = specVertex w h n := by
    intro n
    rcases n with ⟨v, hv⟩
    interval_cases v <;> rfl
  have hstep : ∀ (c : Nat × Nat) (n : Fin 3),
      c.1 ≤ 2147483647 → c.2 ≤ 2147483647 →
      step w h c n = specStep w h c n := by
    intro c n h1 h2
    have hv1 := (positions_le (w := w) (h := h) n).1
    have hv2 := (positions_le (w := w) (h := h) n).2
    simp only [step, specStep, hvert n]
    rw [wadd_eq_add (by rw [← hvert n]; simp only [U32LIM]; omega),
      wadd_eq_add (by rw [← hvert n]; simp only [U32LIM]; omega)]
  have key : ∀ (ms : List (Fin 3)) (c : Nat × Nat),
      c.1 ≤ 2147483647 → c.2 ≤ 2147483647 →
      dotWrites w h c ms = specWalk w h c ms := by
    intro ms
    induction ms with
    | nil => intro c _ _; rfl
    | cons n rest ih =>
      intro c h1 h2
      have hv1 := (positions_le (w := w) (h := h) n).1
      have hv2 := (positions_le (w := w) (h := h) n).2
      have hs1 : (step w h c n).1 ≤ 2147483647 := by
        simp only [step, wadd, U32LIM]
        omega
      have hs2 : (step w h c n).2 ≤ 2147483647 := by
        simp only [step, wadd, U32LIM]
        omega
      simp only [dotWrites, specWalk]
      rw [ih (step w h c n) hs1 hs2, hstep c n h1 h2]
  have hinit : cursorInit w h = specCursorInit w h := by
    have hs : wsub (h / 2) 1 = h / 2 - 1 :=
      wsub_one_eq (by omega) (by simp only [U32LIM]; omega)
    simp only [cursorInit, specCursorInit, hs]
  rw [hinit]
  exact key ns (specCursorInit w h) (by simp only [specCursorInit]; omega)
    (by simp only [specCursorInit]; omega)

/-- C3, witness: the amended theorem applied at `W = H = 10` with one draw
toward the top vertex. -/
theorem c3_witness :
    (2 ≤ 10) ∧
      dotWrites 10 10 (cursorInit 10 10) [2] =
        specWalk 10 10 (specCursorInit 10 10) [2] :=
  ⟨by decide, c3_walk_matches_spec 10 10 [2] (by decide) (by decide)
    (by decide)⟩

/-! ### Claim C4 -/

/-- C4: for every width and height, the three vertices of `positions` are
exactly the spec's bottom-left `(w/10, h - h/10)`, bottom-right
`(w - w/10, h - h/10)` and top `(w/2, h/10)` under integer division, and the
computation is deterministic (recomputing with the same dimensions yields
identical coordinates). -/
theorem c4_vertices (w h : Nat) :
    (positions w h 0 = (w / 10, h - h / 10) ∧
      positions w h 1 = (w - w / 10, h - h / 10) ∧
      positions w h 2 = (w / 2, h / 10)) ∧
    positions w h = positions w h :=
  ⟨⟨rfl, rfl, rfl⟩, rfl⟩

/-! ### Claim C5 -/

/-- C5: the color resolver's input/output table: no string → white with an
informational log; `""` → white with a warning; `"fff"` → white;
`"#f00"` → red; `"00ff00"` → green; `"#0000ff"` → blue; `"zzzzzz"` → white
with the invalid-character warning; `"12"` → white with the invalid-length
warning (the leading `#` is stripped and the length-3 form is expanded by
duplicating each character before the three 2-character groups are parsed
as base-16 bytes). -/
theorem c5_color_table :
    get_color none = some (white, some LogMsg.infoNoColor) ∧
    get_color (some "".toList) = some (white, some LogMsg.warnEmpty) ∧
    get_color (some "fff".toList) = some (⟨255, 255, 255⟩, none) ∧
    get_color (some "#f00".toList) = some (⟨255, 0, 0⟩, none) ∧
    get_color (some "00ff00".toList) = some (⟨0, 255, 0⟩, none) ∧
    get_color (some "#0000ff".toList) = some (⟨0, 0, 255⟩, none) ∧
    get_color (some "zzzzzz".toList) =
      some (white, some LogMsg.warnInvalidDigit) ∧
    get_color (some "12".toList) = some (white, some LogMsg.warnLength) := by
  decide

/-! ### Claim C9 -/

/-- C9: the claim says `get_color` never fails on ANY string, but on the
3-byte string `"€"` the length check passes (`len() = 3` counts bytes), the
shorthand expansion yields the 6-byte string `"€€"`, and the slice
`&hex_code[0..2]` then panics because byte offset 2 is not a character
boundary.  The model returns `none` (a panic) instead of a resolved
color. -/
theorem c9_panic_on_multibyte : get_color (some "€".toList) = none := by
  decide

/-! ### Claim C6 -/

/-- A 10×10 all-red source image, used to separate the original image from
its darkened grayscale. -/
def redImage : SrcImage := ⟨10, 10, fun _ _ => ⟨255, 0, 0⟩⟩

/-- C6, counterexample: in image-seed mode on a 10×10 all-red source image
with zero dots, the corner pixel `(1, 9)` is written with `(255, 0, 0)`,
the ORIGINAL image's pixel, while the grayscale-and-darkened source image
has `(4, 4, 4)` there; the claim that plotted colors come from the
grayscale-and-darkened image is false. -/
theorem c6_counterexample :
    getPix (imageMain redImage []) 1 9 = some ⟨255, 0, 0⟩ ∧
      (seedCanvas redImage).pix 1 9 = ⟨4, 4, 4⟩ ∧
      (⟨255, 0, 0⟩ : Rgb) ≠ ⟨4, 4, 4⟩ := by
  refine ⟨rfl, rfl, by decide⟩

/-- C6 (amended): in image-seed mode, for every plotted coordinate the
color written is the pixel of the ORIGINAL source image at that coordinate
(the grayscale-and-darkened conversion is only the canvas background, not
the sampled color source). -/
theorem c6_samples_original (im : SrcImage) (ns : List (Fin 3)) (out : Canvas)
    (h : imageMain im ns = some out) :
    ∀ x y, (x, y) ∈ writeTrace im.width im.height ns →
      out.pix x y = im.pix x y := by
  unfold imageMain at h
  rw [make_image_eq] at h
  intro x y hmem
  have hpix := (plotList_spec _ _ _ _ h).2.2 x y
  rw [hpix]
  simp only [seedCanvas, to_rgb8, brighten, grayscale] at hmem ⊢
  simp [hmem]

/-- The canvas produced by the image-seed run of the C6 witness. -/
def demoImageOut : Canvas :=
  match imageMain redImage [] with
  | some c => c
  | none => blank 0 0

/-- C6, witness: the amended theorem applied to the all-red image with zero
dots at the corner `(1, 9)`. -/
theorem c6_witness :
    (((1 : Nat), (9 : Nat)) ∈ writeTrace redImage.width redImage.height []) ∧
      demoImageOut.pix 1 9 = redImage.pix 1 9 :=
  ⟨by decide,
    c6_samples_original redImage [] demoImageOut rfl 1 9 (by decide)⟩

/-! ### Claim C7 -/

/-- C7: in image-seed mode, every pixel of the canvas handed to the plotter
(before any dot is plotted) is the source pixel converted to grayscale,
brightness-reduced by 50 units on the 0-255 scale, and re-expanded to RGB;
the canvas keeps the source image's dimensions.  The hypotheses say the
source pixel is a genuine 8-bit pixel (each channel at most 255). -/
theorem c7_initial_canvas (im : SrcImage) (x y : Nat)
    (hr : (im.pix x y).r ≤ 255) (hg : (im.pix x y).g ≤ 255)
    (hb : (im.pix x y).b ≤ 255) :
    (seedCanvas im).pix x y = specSeedPix im x y ∧
      (seedCanvas im).width = im.width ∧
      (seedCanvas im).height = im.height := by
  refine ⟨?_, rfl, rfl⟩
  have hl : luma (im.pix x y) ≤ 255 := by
    simp only [luma]
    omega
  simp only [seedCanvas, to_rgb8, brighten, grayscale, specSeedPix,
    clampToByte]
  have h50 : ((luma (im.pix x y) : Int) + (-50) < 0 → True) := fun _ => trivial
  split
  · rename_i hneg
    have : luma (im.pix x y) - 50 = 0 := by omega
    rw [this]
  · rename_i hpos
    split
    · rename_i hbig
      exfalso
      omega
    · rename_i hsmall
      have : ((luma (im.pix x y) : Int) + (-50)).toNat =
          luma (im.pix x y) - 50 := by omega
      rw [this]

/-- A 2×2 source image for the C7 witness: one red pixel, three dim gray
pixels. -/
def demoSeed : SrcImage :=
  ⟨2, 2, fun x _ => if x = 0 then ⟨255, 0, 0⟩ else ⟨10, 10, 10⟩⟩

/-- C7, witness: the theorem applied to a concrete 2×2 image at pixel
`(0, 0)` (luma 54, darkened to 4) and at pixel `(1, 1)` (luma 10, darkened
saturates to 0). -/
theorem c7_witness :
    ((demoSeed.pix 0 0).r ≤ 255 ∧
      (seedCanvas demoSeed).pix 0 0 = specSeedPix demoSeed 0 0) ∧
      (seedCanvas demoSeed).pix 1 1 = specSeedPix demoSeed 1 1 :=
  ⟨⟨by decide,
      (c7_initial_canvas demoSeed 0 0 (by decide) (by decide) (by decide)).1⟩,
    (c7_initial_canvas demoSeed 1 1 (by decide) (by decide) (by decide)).1⟩

/-! ### Claim C8 -/

/-- C8: whenever `make_image` with zero dots yields a canvas, that canvas
agrees with the input buffer everywhere except the three corner pixels,
which carry the color resolved at their own coordinates. -/
theorem c8_zero_dots (img : Canvas) (color : Nat → Nat → Rgb) (out : Canvas)
    (h : make_image img [] color = some out) :
    ∀ x y, out.pix x y =
      if (x, y) ∈ cornersList img.width img.height then color x y
      else img.pix x y := by
  rw [make_image_eq] at h
  intro x y
  have hpix := (plotList_spec _ _ _ _ h).2.2 x y
  rw [hpix]
  simp [writeTrace, dotWrites]

/-- The canvas produced by the zero-dot run of the C8 witness. -/
def demoOut : Canvas :=
  match make_image (blank 10 10) [] (fun _ _ => white) with
  | some c => c
  | none => blank 0 0

/-- C8, witness: on a blank 10×10 buffer with zero dots, the corner
`(1, 9)` is set to the resolved color (white) and the non-corner `(0, 0)`
keeps its initialized value (black). -/
theorem c8_witness : demoOut.pix 1 9 = white ∧ demoOut.pix 0 0 = ⟨0, 0, 0⟩ := by
  have h := c8_zero_dots (blank 10 10) (fun _ _ => white) demoOut rfl
  constructor
  · rw [h 1 9]
    decide
  · rw [h 0 0]
    decide

/-! ### Claim C10 -/

/-- C10: whenever `make_image` yields a canvas, it has the same dimensions
as the input buffer, every coordinate of the write trace (the 3 vertices
and the successive cursor positions) carries the color resolved at that
coordinate, and every coordinate never plotted retains its value from the
input buffer. -/
theorem c10_frame (img : Canvas) (ns : List (Fin 3))
    (color : Nat → Nat → Rgb) (out : Canvas)
    (h : make_image img ns color = some out) :
    out.width = img.width ∧ out.height = img.height ∧
      (∀ x y, (x, y) ∈ writeTrace img.width img.height ns →
        out.pix x y = color x y) ∧
      (∀ x y, (x, y) ∉ writeTrace img.width img.height ns →
        out.pix x y = img.pix x y) := by
  rw [make_image_eq] at h
  obtain ⟨hw, hh, hpix⟩ := plotList_spec _ _ _ _ h
  refine ⟨hw, hh, ?_, ?_⟩
  · intro x y hmem
    rw [hpix x y]
    simp [hmem]
  · intro x y hmem
    rw [hpix x y]
    simp [hmem]

/-- The canvas produced by the one-dot run of the C10 witness. -/
def demoOut2 : Canvas :=
  match make_image (blank 10 10) [2] (fun _ _ => white) with
  | some c => c
  | none => blank 0 0

/-- C10, witness: on a blank 10×10 buffer with one dot, the output keeps
width 10, the unplotted pixel `(3, 3)` stays black, and the plotted cursor
`(5, 4)` is white. -/
theorem c10_witness :
    demoOut2.width = 10 ∧ demoOut2.pix 3 3 = ⟨0, 0, 0⟩ ∧
      demoOut2.pix 5 4 = white := by
  have h := c10_frame (blank 10 10) [2] (fun _ _ => white) demoOut2 rfl
  refine ⟨h.1, ?_, ?_⟩
  · rw [h.2.2.2 3 3 (by decide)]
    rfl
  · rw [h.2.2.1 5 4 (by decide)]

end Sierpinski
